import Mathlib

/-!
Verification of the BCM2708 SPI controller driver (drivers/spi/spi-bcm2708.c).

The driver's core is shallowly embedded: machine integers become `Nat`
(all values involved fit in the C types on every path modelled here),
memory-mapped FIFO traffic becomes explicit lists (`rxFifo` holds the bytes
the receive FIFO will yield; `txFifoWr` records every value written to the
FIFO register), buffer cursors become list cursors (`tx_buf` is the bytes
still ahead of the transmit cursor, `rx_buf` accumulates the bytes stored
through the receive cursor), and the completion object becomes the `done`
flag.  Fallible C functions returning negative errno values are embedded as
`Except Int` or as an explicit `Int` status.
-/

/-! ## Register bitfields (from the `SPI_CS_*` defines) -/

def SPI_CS_CSPOL2 : Nat := 0x00800000
def SPI_CS_CSPOL1 : Nat := 0x00400000
def SPI_CS_CSPOL0 : Nat := 0x00200000
def SPI_CS_RXF : Nat := 0x00100000
def SPI_CS_RXR : Nat := 0x00080000
def SPI_CS_TXD : Nat := 0x00040000
def SPI_CS_RXD : Nat := 0x00020000
def SPI_CS_DONE : Nat := 0x00010000
def SPI_CS_LEN : Nat := 0x00002000
def SPI_CS_REN : Nat := 0x00001000
def SPI_CS_INTR : Nat := 0x00000400
def SPI_CS_INTD : Nat := 0x00000200
def SPI_CS_TA : Nat := 0x00000080
def SPI_CS_CSPOL : Nat := 0x00000040
def SPI_CS_CPOL : Nat := 0x00000008
def SPI_CS_CPHA : Nat := 0x00000004
def SPI_CS_CS_10 : Nat := 0x00000002
def SPI_CS_CS_01 : Nat := 0x00000001

/-- Modelled from the spec: the standard Linux SPI mode flag bits used by this
driver (`linux/spi/spi.h` is not part of the repository snapshot; the values
are the kernel's fixed ABI constants named by the spec's mode-flag
descriptions). -/
def SPI_CPHA : Nat := 0x01
def SPI_CPOL : Nat := 0x02
def SPI_CS_HIGH : Nat := 0x04
def SPI_NO_CS : Nat := 0x40

/-- Linux errno values used by the driver (negated at return sites). -/
def EINVAL : Int := 22
def ESHUTDOWN : Int := 108
def ETIMEDOUT : Int := 110

def SPI_TIMEOUT_MS : Nat := 150

/-- Mask for clearing bits out of a 32-bit register value
(`cs &= ~(...)` in C). -/
def clear32 (x mask : Nat) : Nat := x &&& (0xFFFFFFFF ^^^ mask)

/-! ## Driver state (`struct bcm2708_spi`, plus the modelled hardware) -/

/-- The cursor state of `struct bcm2708_spi` together with the modelled
hardware: `cs` is the content of the CS register (control word plus the
DONE/RXR status bits supplied by the hardware), `rxFifo` the bytes the
receive FIFO holds, `txFifoWr` the log of values written to the FIFO
register, and `done` the completion object. -/
structure bcm2708_spi where
  cs : Nat
  rxFifo : List Nat
  txFifoWr : List Nat
  tx_buf : Option (List Nat)
  rx_buf : Option (List Nat)
  len : Nat
  done : Bool
  deriving Repr, DecidableEq

/-- The `struct bcm2708_spi_state` record: the cached control word / clock divisor pair. -/
structure bcm2708_spi_state where
  cs : Nat
  cdiv : Nat
  deriving Repr, DecidableEq

/-- Reading the CS register: the receive-FIFO-has-data flag tracks whether the
receive FIFO is nonempty; all other bits are as stored. -/
def csRead (bs : bcm2708_spi) : Nat :=
  if bs.rxFifo ≠ [] then bs.cs ||| SPI_CS_RXD else clear32 bs.cs SPI_CS_RXD

/-! ## FIFO pump (`bcm2708_rd_fifo`, `bcm2708_wr_fifo`) -/

/-- The function `bcm2708_rd_fifo`: read `len` bytes from the receive FIFO, storing each
through the rx cursor when an rx buffer is present. -/
def bcm2708_rd_fifo : bcm2708_spi → Nat → bcm2708_spi
  | bs, 0 => bs
  | bs, n + 1 =>
    let byte := bs.rxFifo.headD 0
    bcm2708_rd_fifo
      { bs with rxFifo := bs.rxFifo.tail
                rx_buf := bs.rx_buf.map (fun l => l ++ [byte]) } n

/-- The byte-mode transmit loop of `bcm2708_wr_fifo` (`while (len--)`):
push `n` bytes from the tx cursor (zeros when no tx buffer), decrementing
`bs->len` once per byte. -/
def wrByteLoop : bcm2708_spi → Nat → bcm2708_spi
  | bs, 0 => bs
  | bs, n + 1 =>
    let byte := match bs.tx_buf with
      | some l => l.headD 0
      | none => 0
    wrByteLoop
      { bs with tx_buf := bs.tx_buf.map List.tail
                txFifoWr := bs.txFifoWr ++ [byte]
                len := bs.len - 1 } n

/-- The LoSSI (wide) transmit loop of `bcm2708_wr_fifo` (`while (len)`, with
`len -= 2` per iteration): push `n` 16-bit words, each assembled
little-endian from two tx-cursor bytes (zero when no tx buffer),
decrementing `bs->len` by two per word. -/
def wrWideLoop : bcm2708_spi → Nat → bcm2708_spi
  | bs, 0 => bs
  | bs, n + 1 =>
    let val := match bs.tx_buf with
      | some l => l.headD 0 + 256 * l.tail.headD 0
      | none => 0
    wrWideLoop
      { bs with tx_buf := bs.tx_buf.map (fun l => l.tail.tail)
                txFifoWr := bs.txFifoWr ++ [val]
                len := bs.len - 2 } n

/-- The function `bcm2708_wr_fifo`: clamp the requested count to the remaining length;
in LoSSI mode an odd clamped count aborts the push (`bs->len = 0`) and an
even one moves 2-byte units; otherwise bytes are moved one at a time. -/
def bcm2708_wr_fifo (bs : bcm2708_spi) (lenArg : Nat) : bcm2708_spi :=
  let len := if lenArg > bs.len then bs.len else lenArg
  if csRead bs &&& SPI_CS_LEN ≠ 0 then
    if len % 2 ≠ 0 then
      { bs with len := 0 }
    else
      wrWideLoop bs (len / 2)
  else
    wrByteLoop bs len

/-! ## Interrupt handler (`bcm2708_spi_interrupt`) -/

/-- The drain loop of the completion branch, stepped with fuel: read one byte
at a time until the receive-FIFO-has-data flag (re-read each iteration)
clears. -/
def drainLoopFuel : Nat → bcm2708_spi → bcm2708_spi
  | 0, bs => bs
  | n + 1, bs =>
    match bs.rxFifo with
    | [] => bs
    | b :: rest =>
      drainLoopFuel n { bs with rxFifo := rest
                                rx_buf := bs.rx_buf.map (fun l => l ++ [b]) }

/-- The drain loop of the completion branch: the loop runs until the receive
FIFO empties, so the FIFO's length is enough fuel. -/
def drainLoop (bs : bcm2708_spi) : bcm2708_spi :=
  drainLoopFuel bs.rxFifo.length bs

/-- The handler `bcm2708_spi_interrupt`: on DONE with nonzero remaining length push up to
16 bytes; on DONE with zero remaining length disable the interrupt-enable
bits, drain the receive FIFO and raise completion; otherwise on RXR read 12
bytes then push up to 12. -/
def bcm2708_spi_interrupt (bs : bcm2708_spi) : bcm2708_spi :=
  let cs := csRead bs
  if cs &&& SPI_CS_DONE ≠ 0 then
    if bs.len ≠ 0 then
      bcm2708_wr_fifo bs 16
    else
      let bs1 := { bs with cs := clear32 cs (SPI_CS_INTR ||| SPI_CS_INTD) }
      let bs2 := drainLoop bs1
      { bs2 with done := true }
  else if cs &&& SPI_CS_RXR ≠ 0 then
    bcm2708_wr_fifo (bcm2708_rd_fifo bs 12) 12
  else
    bs

/-- Iterate the interrupt handler (the hardware keeps interrupting while the
enable bits are set) until completion is raised, with fuel. -/
def runIrqs : Nat → bcm2708_spi → bcm2708_spi
  | 0, bs => bs
  | n + 1, bs => if bs.done then bs else runIrqs n (bcm2708_spi_interrupt bs)

/-! ## Configuration resolver (`bcm2708_setup_state`) -/

/-- The kernel macro `DIV_ROUND_UP`: ceiling division. -/
def DIV_ROUND_UP (n d : Nat) : Nat := (n + d - 1) / d

/-- Modelled from the spec: the kernel's `roundup_pow_of_two` helper
(not part of the repository snapshot) — round up to the next power of two. -/
def roundup_pow_of_two (n : Nat) : Nat := 2 ^ Nat.clog 2 n

/-- The clock-divisor computation of `bcm2708_setup_state`. -/
def bcm2708_setup_cdiv (bus_hz hz : Nat) : Except Int Nat :=
  if hz ≥ bus_hz then
    .ok 2
  else if hz ≠ 0 then
    let cdiv := roundup_pow_of_two (DIV_ROUND_UP bus_hz hz)
    if cdiv > 65536 then .error (-EINVAL)
    else if cdiv = 65536 then .ok 0
    else if cdiv = 1 then .ok 2
    else .ok cdiv
  else
    .ok 0

/-- The control-word assembly of `bcm2708_setup_state` (the `bpw` switch has
already validated that `bpw` is 8 or 9). -/
def setup_cs_word (mode csel bpw : Nat) : Nat :=
  let cs0 := if bpw = 9 then SPI_CS_LEN else 0
  let cs1 := if mode &&& SPI_CPOL ≠ 0 then cs0 ||| SPI_CS_CPOL else cs0
  let cs2 := if mode &&& SPI_CPHA ≠ 0 then cs1 ||| SPI_CS_CPHA else cs1
  if mode &&& SPI_NO_CS = 0 then
    let cs3 := if mode &&& SPI_CS_HIGH ≠ 0 then
        cs2 ||| SPI_CS_CSPOL ||| (SPI_CS_CSPOL0 <<< csel)
      else cs2
    cs3 ||| csel
  else
    cs2 ||| SPI_CS_CS_10 ||| SPI_CS_CS_01

/-- The resolver `bcm2708_setup_state`: compute the clock divisor, validate the word
width (8 or 9), and assemble the control word. -/
def bcm2708_setup_state (bus_hz hz csel mode bpw : Nat) :
    Except Int bcm2708_spi_state :=
  match bcm2708_setup_cdiv bus_hz hz with
  | .error e => .error e
  | .ok cdiv =>
    if bpw = 8 ∨ bpw = 9 then
      .ok ⟨setup_cs_word mode csel bpw, cdiv⟩
    else
      .error (-EINVAL)

/-! ## Messages, submission (`bcm2708_spi_transfer`), setup, worker -/

/-- The `struct spi_transfer` record (the fields the driver reads). -/
structure spi_transfer where
  tx_buf : Option (List Nat)
  rx_buf : Option (List Nat)
  len : Nat
  speed_hz : Nat
  bits_per_word : Nat
  delay_usecs : Nat
  cs_change : Bool
  deriving Repr, DecidableEq

/-- The `struct spi_device` record (the fields the driver reads). -/
structure spi_device where
  max_speed_hz : Nat
  chip_select : Nat
  mode : Nat
  bits_per_word : Nat
  deriving Repr, DecidableEq

/-- The `struct spi_message` record (the fields the driver reads). -/
structure spi_message where
  spi : spi_device
  transfers : List spi_transfer
  deriving Repr, DecidableEq

/-- The per-transfer validation body of `bcm2708_spi_transfer`'s loop:
a transfer with nonzero length needs a buffer, and — as the guard
`if (!xfer->bits_per_word || xfer->speed_hz) continue;` is written — the
eager resolver check runs only when `bits_per_word` is set and `speed_hz`
is not. -/
def validate_xfer (spi : spi_device) (bus_hz : Nat) (x : spi_transfer) :
    Except Int Unit :=
  if (x.tx_buf.isNone ∧ x.rx_buf.isNone) ∧ x.len ≠ 0 then
    .error (-EINVAL)
  else if x.bits_per_word = 0 ∨ x.speed_hz ≠ 0 then
    .ok ()
  else
    match bcm2708_setup_state bus_hz
        (if x.speed_hz ≠ 0 then x.speed_hz else spi.max_speed_hz)
        spi.chip_select spi.mode
        (if x.bits_per_word ≠ 0 then x.bits_per_word else spi.bits_per_word) with
    | .error e => .error e
    | .ok _ => .ok ()

/-- The validation loop of `bcm2708_spi_transfer` over the message's
transfers, stopping at the first failure. -/
def validate_xfers (spi : spi_device) (bus_hz : Nat) :
    List spi_transfer → Except Int Unit
  | [] => .ok ()
  | x :: rest =>
    match validate_xfer spi bus_hz x with
    | .error e => .error e
    | .ok _ => validate_xfers spi bus_hz rest

/-- The submission entry `bcm2708_spi_transfer`: reject an empty message, then a stopping
controller, then validate each transfer; on success append the message to
the queue tail.  Returns the status and the resulting queue. -/
def bcm2708_spi_transfer (bus_hz : Nat) (stopping : Bool)
    (queue : List spi_message) (msg : spi_message) : Int × List spi_message :=
  if msg.transfers = [] then (-EINVAL, queue)
  else if stopping then (-ESHUTDOWN, queue)
  else
    match validate_xfers msg.spi bus_hz msg.transfers with
    | .error e => (e, queue)
    | .ok _ => (0, queue ++ [msg])

/-- The value of `master->num_chipselect` as set in `bcm2708_spi_probe`. -/
def master_num_chipselect : Nat := 3

/-- The peer-setup entry `bcm2708_spi_setup` (the validation and resolution part): reject when
stopping, reject a chip select strictly greater than the configured count
unless no-chip-select mode is set, then resolve the peer configuration. -/
def bcm2708_spi_setup (stopping : Bool) (num_cs bus_hz max_speed_hz csel mode bpw : Nat) :
    Except Int bcm2708_spi_state :=
  if stopping then .error (-ESHUTDOWN)
  else if mode &&& SPI_NO_CS = 0 ∧ csel > num_cs then .error (-EINVAL)
  else bcm2708_setup_state bus_hz max_speed_hz csel mode bpw

/-- The function `bcm2708_process_transfer`, observed at the status level: fail when
stopping; resolve the per-transfer override (or use the cached peer state);
then the armed transfer either completes in time (status 0) or times out.
`completes` is the hardware environment: whether the completion signal is
raised within the 150 ms budget. -/
def bcm2708_process_transfer (stopping : Bool) (bus_hz : Nat)
    (msgSpi : spi_device) (ctrlState : bcm2708_spi_state)
    (x : spi_transfer) (completes : Bool) : Int :=
  if stopping then -ESHUTDOWN
  else
    match (if x.bits_per_word ≠ 0 ∨ x.speed_hz ≠ 0 then
        bcm2708_setup_state bus_hz
          (if x.speed_hz ≠ 0 then x.speed_hz else msgSpi.max_speed_hz)
          msgSpi.chip_select msgSpi.mode
          (if x.bits_per_word ≠ 0 then x.bits_per_word else msgSpi.bits_per_word)
      else .ok ctrlState) with
    | .error e => e
    | .ok _ => if completes then 0 else -ETIMEDOUT

/-- The line `msg->actual_length += (xfer->len - bs->len)`: the per-transfer
contribution to the message's actual length, from the transfer's length and
the remaining length left after the pump finished. -/
def actual_length_add (xferLen remaining : Nat) : Nat := xferLen - remaining

/-- The inner loop of `bcm2708_work`: run the message's transfers in list
order through `proc` (the per-transfer outcome), stopping at the first
nonzero status.  Returns the message's final status and the list of
transfers actually attempted. -/
def runTransfers (proc : spi_transfer → Int) :
    List spi_transfer → Int × List spi_transfer
  | [] => (0, [])
  | x :: rest =>
    let s := proc x
    if s ≠ 0 then (s, [x])
    else
      let r := runTransfers proc rest
      (r.1, x :: r.2)

/-- The worker `bcm2708_work`: pop messages from the queue head in order; for each, run
its transfers and invoke its completion callback once with the final
status.  The result lists the completion invocations in order. -/
def bcm2708_work (proc : spi_transfer → Int) :
    List spi_message → List (spi_message × Int)
  | [] => []
  | msg :: rest =>
    (msg, (runTransfers proc msg.transfers).1) :: bcm2708_work proc rest

/-! ## Closed forms for the FIFO loops -/

/-- The bytes a byte-mode push of `n` emits from a tx cursor: the cursor's
next `n` bytes, padded with zeros (reads beyond the buffer model as zero;
the driver never goes there because the clamp keeps `n` within the
remaining length). -/
def txBytes : Option (List Nat) → Nat → List Nat
  | none, n => List.replicate n 0
  | some l, n => l.take n ++ List.replicate (n - l.length) 0

/-- The words a LoSSI push of `n` words emits from a tx cursor:
little-endian byte pairs, zero words with no tx buffer. -/
def wideWords : Option (List Nat) → Nat → List Nat
  | _, 0 => []
  | none, n + 1 => 0 :: wideWords none n
  | some l, n + 1 =>
    (l.headD 0 + 256 * l.tail.headD 0) :: wideWords (some (l.tail.tail)) n

/-- The bytes `n` reads from a receive FIFO yield: the FIFO's first `n`
bytes, padded with zeros when the FIFO underflows. -/
def rxBytes (fifo : List Nat) (n : Nat) : List Nat :=
  fifo.take n ++ List.replicate (n - fifo.length) 0

/-! ## Concrete fixtures used by witnesses and counterexamples -/

def spiDev0 : spi_device := ⟨250000000, 0, 0, 8⟩

def xfA : spi_transfer := ⟨none, some [0], 1, 0, 0, 0, false⟩

def xfB : spi_transfer := ⟨none, some [0], 9, 0, 0, 0, false⟩

def xfC : spi_transfer := ⟨none, some [0], 2, 0, 0, 0, false⟩

def msgA : spi_message := ⟨spiDev0, [xfA, xfB, xfC]⟩

def msgB : spi_message := ⟨spiDev0, [xfA]⟩

/-- A transfer carrying both an invalid word-width override (7) and a speed
override: the submission-time validation guard skips it. -/
def xfBug : spi_transfer := ⟨some [1], none, 1, 250000000, 7, 0, false⟩

def msgBug : spi_message := ⟨spiDev0, [xfBug]⟩

/-- The same invalid width override without a speed override: the guard does
validate this one. -/
def xfBadW : spi_transfer := ⟨some [1], none, 1, 0, 7, 0, false⟩

def msgBadW : spi_message := ⟨spiDev0, [xfBadW]⟩

theorem txBytes_zero (tx : Option (List Nat)) : txBytes tx 0 = [] := by
  cases tx <;> simp [txBytes]

theorem txBytes_succ (tx : Option (List Nat)) (n : Nat) :
    txBytes tx (n + 1) =
      (match tx with | some l => l.headD 0 | none => 0) ::
        txBytes (tx.map List.tail) n := by
  cases tx with
  | none => simp [txBytes, List.replicate_succ]
  | some l =>
    cases l with
    | nil => simp [txBytes, List.replicate_succ]
    | cons a t =>
      simp [txBytes, List.take_succ_cons, Nat.succ_sub_succ]

theorem rxBytes_zero (fifo : List Nat) : rxBytes fifo 0 = [] := by
  simp [rxBytes]

theorem rxBytes_succ (fifo : List Nat) (n : Nat) :
    rxBytes fifo (n + 1) = fifo.headD 0 :: rxBytes fifo.tail n := by
  cases fifo with
  | nil => simp [rxBytes, List.replicate_succ]
  | cons a t => simp [rxBytes, List.take_succ_cons, Nat.succ_sub_succ]

theorem wrByteLoop_spec (n : Nat) (bs : bcm2708_spi) :
    wrByteLoop bs n =
      { bs with tx_buf := bs.tx_buf.map (List.drop n)
                txFifoWr := bs.txFifoWr ++ txBytes bs.tx_buf n
                len := bs.len - n } := by
  induction n generalizing bs with
  | zero =>
    have h0 : ∀ (o : Option (List Nat)), o.map (List.drop 0) = o := by
      intro o
      cases o <;> simp
    simp [wrByteLoop, txBytes_zero, h0]
  | succ n ih =>
    rw [wrByteLoop, ih]
    obtain ⟨cs, rxF, txF, tx, rx, len, dn⟩ := bs
    have hdt : ∀ (l : List Nat), List.drop n l.tail = List.drop (n + 1) l := by
      intro l
      rw [← List.drop_one, List.drop_drop, Nat.add_comm]
    cases tx <;>
      simp [txBytes_succ, bcm2708_spi.mk.injEq, List.append_assoc, hdt] <;>
      omega

theorem wrWideLoop_spec (n : Nat) (bs : bcm2708_spi) :
    wrWideLoop bs n =
      { bs with tx_buf := bs.tx_buf.map (List.drop (2 * n))
                txFifoWr := bs.txFifoWr ++ wideWords bs.tx_buf n
                len := bs.len - 2 * n } := by
  induction n generalizing bs with
  | zero =>
    have h0 : ∀ (o : Option (List Nat)), o.map (List.drop 0) = o := by
      intro o
      cases o <;> simp
    simp [wrWideLoop, wideWords, h0]
  | succ n ih =>
    rw [wrWideLoop, ih]
    obtain ⟨cs, rxF, txF, tx, rx, len, dn⟩ := bs
    have hdt : ∀ (l : List Nat), List.drop (2 * n) l.tail.tail = List.drop (2 * (n + 1)) l := by
      intro l
      rw [← List.drop_one, ← List.drop_one, List.drop_drop, List.drop_drop]
      congr 1
      omega
    cases tx <;>
      simp [wideWords, bcm2708_spi.mk.injEq, List.append_assoc, hdt, Nat.mul_succ] <;>
      omega

theorem bcm2708_rd_fifo_spec (n : Nat) (bs : bcm2708_spi) :
    bcm2708_rd_fifo bs n =
      { bs with rxFifo := bs.rxFifo.drop n
                rx_buf := bs.rx_buf.map (fun l => l ++ rxBytes bs.rxFifo n) } := by
  induction n generalizing bs with
  | zero =>
    have h0 : ∀ (o : Option (List Nat)), o.map (fun l => l ++ rxBytes bs.rxFifo 0) = o := by
      intro o
      cases o <;> simp [rxBytes]
    simp [bcm2708_rd_fifo, h0]
  | succ n ih =>
    rw [bcm2708_rd_fifo, ih]
    obtain ⟨cs, rxF, txF, tx, rx, len, dn⟩ := bs
    have hdt : ∀ (l : List Nat), List.drop n l.tail = List.drop (n + 1) l := by
      intro l
      rw [← List.drop_one, List.drop_drop, Nat.add_comm]
    cases rx <;>
      simp [rxBytes_succ, bcm2708_spi.mk.injEq, List.append_assoc, hdt]

theorem drainLoopFuel_spec (n : Nat) (bs : bcm2708_spi)
    (h : bs.rxFifo.length ≤ n) :
    drainLoopFuel n bs =
      { bs with rxFifo := []
                rx_buf := bs.rx_buf.map (fun l => l ++ bs.rxFifo) } := by
  induction n generalizing bs with
  | zero =>
    obtain ⟨cs, rxF, txF, tx, rx, len, dn⟩ := bs
    cases rxF with
    | nil => cases rx <;> simp [drainLoopFuel]
    | cons b rest => simp at h
  | succ n ih =>
    obtain ⟨cs, rxF, txF, tx, rx, len, dn⟩ := bs
    cases rxF with
    | nil => cases rx <;> simp [drainLoopFuel]
    | cons b rest =>
      rw [drainLoopFuel]
      simp only []
      rw [ih]
      · cases rx <;> simp [bcm2708_spi.mk.injEq, List.append_assoc]
      · simp at h ⊢
        omega

theorem drainLoop_spec (bs : bcm2708_spi) :
    drainLoop bs =
      { bs with rxFifo := []
                rx_buf := bs.rx_buf.map (fun l => l ++ bs.rxFifo) } :=
  drainLoopFuel_spec bs.rxFifo.length bs le_rfl

/-! ## Bit-level helpers -/

theorem land_two_pow_or (x y n : Nat) (hy : y.testBit n = false) :
    (x ||| y) &&& 2 ^ n = x &&& 2 ^ n := by
  apply Nat.eq_of_testBit_eq
  intro i
  rw [Nat.testBit_land, Nat.testBit_land, Nat.testBit_lor]
  rcases eq_or_ne n i with rfl | h
  · rw [hy]
    simp
  · rw [Nat.testBit_two_pow_of_ne h]
    simp

theorem land_two_pow_and (x y n : Nat) (hy : y.testBit n = true) :
    (x &&& y) &&& 2 ^ n = x &&& 2 ^ n := by
  apply Nat.eq_of_testBit_eq
  intro i
  rw [Nat.testBit_land, Nat.testBit_land, Nat.testBit_land]
  rcases eq_or_ne n i with rfl | h
  · rw [hy]
    simp
  · rw [Nat.testBit_two_pow_of_ne h]
    simp

/-- Reading the CS register never changes the LoSSI width flag: `csRead` only
adjusts the RXD status bit. -/
theorem csRead_land_len (bs : bcm2708_spi) :
    csRead bs &&& SPI_CS_LEN = bs.cs &&& SPI_CS_LEN := by
  have hlen : SPI_CS_LEN = 2 ^ 13 := by norm_num [SPI_CS_LEN]
  rw [csRead]
  split
  · rw [hlen]
    exact land_two_pow_or _ _ _ (by decide)
  · rw [hlen, clear32]
    exact land_two_pow_and _ _ _ (by decide)

/-- The clamp `if (len > bs->len) len = bs->len;` is the minimum. -/
theorem clamp_eq_min (lenArg l : Nat) :
    (if lenArg > l then l else lenArg) = min lenArg l := by
  split <;> omega

/-! ## Case analysis of `bcm2708_wr_fifo` -/

theorem bcm2708_wr_fifo_byte (bs : bcm2708_spi) (lenArg : Nat)
    (h : csRead bs &&& SPI_CS_LEN = 0) :
    bcm2708_wr_fifo bs lenArg =
      { bs with tx_buf := bs.tx_buf.map (List.drop (min lenArg bs.len))
                txFifoWr := bs.txFifoWr ++ txBytes bs.tx_buf (min lenArg bs.len)
                len := bs.len - min lenArg bs.len } := by
  rw [bcm2708_wr_fifo]
  simp only [clamp_eq_min, h, ne_eq, not_true_eq_false, if_false]
  exact wrByteLoop_spec _ _

theorem bcm2708_wr_fifo_wide_even (bs : bcm2708_spi) (lenArg : Nat)
    (h : csRead bs &&& SPI_CS_LEN ≠ 0) (he : min lenArg bs.len % 2 = 0) :
    bcm2708_wr_fifo bs lenArg =
      { bs with tx_buf := bs.tx_buf.map (List.drop (min lenArg bs.len))
                txFifoWr := bs.txFifoWr ++ wideWords bs.tx_buf (min lenArg bs.len / 2)
                len := bs.len - min lenArg bs.len } := by
  rw [bcm2708_wr_fifo]
  simp only [clamp_eq_min]
  rw [if_pos h, if_neg (by omega)]
  rw [wrWideLoop_spec]
  have h2 : 2 * (min lenArg bs.len / 2) = min lenArg bs.len := by omega
  rw [h2]

theorem bcm2708_wr_fifo_wide_odd (bs : bcm2708_spi) (lenArg : Nat)
    (h : csRead bs &&& SPI_CS_LEN ≠ 0) (ho : min lenArg bs.len % 2 = 1) :
    bcm2708_wr_fifo bs lenArg = { bs with len := 0 } := by
  rw [bcm2708_wr_fifo]
  simp only [clamp_eq_min]
  rw [if_pos h, if_pos (by omega)]

/-! ## Interrupt handler behaviour -/

/-- C1 (amended): for every hardware interrupt taken while a Transfer is
armed — if the status word has the "done" bit set and the remaining length
is nonzero, the handler pushes up to 16 bytes (clamped to the remaining
length, zeros when no tx buffer) from the tx cursor into the FIFO and
decrements the remaining length by the number pushed, except that in wide
(LoSSI) mode the bytes move as 2-byte words and an odd clamped count aborts
the push, zeroing the remaining length with nothing written; if "done" is
set and the remaining length is zero, it clears the two interrupt-enable
bits, drains the receive FIFO one byte at a time into the rx cursor (or
discards when no rx buffer) until the receive-FIFO-has-data flag clears,
and raises the completion signal; otherwise, if the "ready" bit is set, it
reads exactly 12 bytes from the receive FIFO into the rx cursor and then
pushes up to 12 more bytes from the tx cursor under the same push rules;
with neither bit set the state is untouched. -/
theorem spi_interrupt_cases (bs : bcm2708_spi) :
    (csRead bs &&& SPI_CS_DONE ≠ 0 → bs.len ≠ 0 → csRead bs &&& SPI_CS_LEN = 0 →
      bcm2708_spi_interrupt bs =
        { bs with tx_buf := bs.tx_buf.map (List.drop (min 16 bs.len))
                  txFifoWr := bs.txFifoWr ++ txBytes bs.tx_buf (min 16 bs.len)
                  len := bs.len - min 16 bs.len }) ∧
    (csRead bs &&& SPI_CS_DONE ≠ 0 → bs.len ≠ 0 → csRead bs &&& SPI_CS_LEN ≠ 0 →
      min 16 bs.len % 2 = 0 →
      bcm2708_spi_interrupt bs =
        { bs with tx_buf := bs.tx_buf.map (List.drop (min 16 bs.len))
                  txFifoWr := bs.txFifoWr ++ wideWords bs.tx_buf (min 16 bs.len / 2)
                  len := bs.len - min 16 bs.len }) ∧
    (csRead bs &&& SPI_CS_DONE ≠ 0 → bs.len ≠ 0 → csRead bs &&& SPI_CS_LEN ≠ 0 →
      min 16 bs.len % 2 = 1 →
      bcm2708_spi_interrupt bs = { bs with len := 0 }) ∧
    (csRead bs &&& SPI_CS_DONE ≠ 0 → bs.len = 0 →
      bcm2708_spi_interrupt bs =
        { bs with cs := clear32 (csRead bs) (SPI_CS_INTR ||| SPI_CS_INTD)
                  rxFifo := []
                  rx_buf := bs.rx_buf.map (fun l => l ++ bs.rxFifo)
                  done := true }) ∧
    (csRead bs &&& SPI_CS_DONE = 0 → csRead bs &&& SPI_CS_RXR ≠ 0 →
      csRead bs &&& SPI_CS_LEN = 0 →
      bcm2708_spi_interrupt bs =
        { bs with rxFifo := bs.rxFifo.drop 12
                  rx_buf := bs.rx_buf.map (fun l => l ++ rxBytes bs.rxFifo 12)
                  tx_buf := bs.tx_buf.map (List.drop (min 12 bs.len))
                  txFifoWr := bs.txFifoWr ++ txBytes bs.tx_buf (min 12 bs.len)
                  len := bs.len - min 12 bs.len }) ∧
    (csRead bs &&& SPI_CS_DONE = 0 → csRead bs &&& SPI_CS_RXR ≠ 0 →
      csRead bs &&& SPI_CS_LEN ≠ 0 → min 12 bs.len % 2 = 0 →
      bcm2708_spi_interrupt bs =
        { bs with rxFifo := bs.rxFifo.drop 12
                  rx_buf := bs.rx_buf.map (fun l => l ++ rxBytes bs.rxFifo 12)
                  tx_buf := bs.tx_buf.map (List.drop (min 12 bs.len))
                  txFifoWr := bs.txFifoWr ++ wideWords bs.tx_buf (min 12 bs.len / 2)
                  len := bs.len - min 12 bs.len }) ∧
    (csRead bs &&& SPI_CS_DONE = 0 → csRead bs &&& SPI_CS_RXR ≠ 0 →
      csRead bs &&& SPI_CS_LEN ≠ 0 → min 12 bs.len % 2 = 1 →
      bcm2708_spi_interrupt bs =
        { bs with rxFifo := bs.rxFifo.drop 12
                  rx_buf := bs.rx_buf.map (fun l => l ++ rxBytes bs.rxFifo 12)
                  len := 0 }) ∧
    (csRead bs &&& SPI_CS_DONE = 0 → csRead bs &&& SPI_CS_RXR = 0 →
      bcm2708_spi_interrupt bs = bs) := by
  refine ⟨?_, ?_, ?_, ?_, ?_, ?_, ?_, ?_⟩
  · intro hd hl hb
    simp only [bcm2708_spi_interrupt]
    rw [if_pos hd, if_pos hl]
    exact bcm2708_wr_fifo_byte bs 16 hb
  · intro hd hl hb he
    simp only [bcm2708_spi_interrupt]
    rw [if_pos hd, if_pos hl]
    exact bcm2708_wr_fifo_wide_even bs 16 hb he
  · intro hd hl hb ho
    simp only [bcm2708_spi_interrupt]
    rw [if_pos hd, if_pos hl]
    exact bcm2708_wr_fifo_wide_odd bs 16 hb ho
  · intro hd hl0
    simp only [bcm2708_spi_interrupt]
    rw [if_pos hd, if_neg (by omega), drainLoop_spec]
  · intro hd hr hb
    simp only [bcm2708_spi_interrupt]
    rw [if_neg (by omega), if_pos hr, bcm2708_rd_fifo_spec]
    rw [csRead_land_len] at hb
    have hb2 : csRead { bs with rxFifo := List.drop 12 bs.rxFifo
                                rx_buf := bs.rx_buf.map (fun l => l ++ rxBytes bs.rxFifo 12) } &&& SPI_CS_LEN = 0 := by
      rw [csRead_land_len]
      exact hb
    rw [bcm2708_wr_fifo_byte _ 12 hb2]
  · intro hd hr hb he
    simp only [bcm2708_spi_interrupt]
    rw [if_neg (by omega), if_pos hr, bcm2708_rd_fifo_spec]
    rw [csRead_land_len] at hb
    have hb2 : csRead { bs with rxFifo := List.drop 12 bs.rxFifo
                                rx_buf := bs.rx_buf.map (fun l => l ++ rxBytes bs.rxFifo 12) } &&& SPI_CS_LEN ≠ 0 := by
      rw [csRead_land_len]
      exact hb
    rw [bcm2708_wr_fifo_wide_even _ 12 hb2 he]
  · intro hd hr hb ho
    simp only [bcm2708_spi_interrupt]
    rw [if_neg (by omega), if_pos hr, bcm2708_rd_fifo_spec]
    rw [csRead_land_len] at hb
    have hb2 : csRead { bs with rxFifo := List.drop 12 bs.rxFifo
                                rx_buf := bs.rx_buf.map (fun l => l ++ rxBytes bs.rxFifo 12) } &&& SPI_CS_LEN ≠ 0 := by
      rw [csRead_land_len]
      exact hb
    rw [bcm2708_wr_fifo_wide_odd _ 12 hb2 ho]
  · intro hd hr
    simp only [bcm2708_spi_interrupt]
    rw [if_neg (by omega), if_neg (by omega)]

/-- C1 witness: a concrete first interrupt (DONE, 3 bytes remaining, byte
mode) pushes exactly the three buffered bytes and zeroes the remaining
length. -/
theorem spi_interrupt_cases_witness :
    bcm2708_spi_interrupt ⟨65536, [], [], some [17, 34, 51], some [], 3, false⟩ =
      ⟨65536, [], [17, 34, 51], some [], some [], 0, false⟩ := by
  have h := (spi_interrupt_cases ⟨65536, [], [], some [17, 34, 51], some [], 3, false⟩).1
    (by decide) (by decide) (by decide)
  rw [h]
  rfl

/-- C1 counterexample: in wide (LoSSI) mode with DONE set and an odd
remaining length of 5 (below the 16-byte clamp), the handler writes nothing
to the FIFO yet sets the remaining length to 0 — not to 5 − 0 as "decrements
the remaining length by the number pushed" would require. -/
theorem spi_interrupt_wide_odd_cex :
    (bcm2708_spi_interrupt ⟨73728, [], [], some [5, 6, 7, 8, 9], none, 5, false⟩).txFifoWr = [] ∧
    (bcm2708_spi_interrupt ⟨73728, [], [], some [5, 6, 7, 8, 9], none, 5, false⟩).len = 0 ∧
    (0 : Nat) ≠ 5 - 0 := by
  decide

/-! ## Arithmetic of the clock-divisor computation -/

theorem DIV_ROUND_UP_two_le (bus hz : Nat) (h0 : 0 < hz) (h1 : hz < bus) :
    2 ≤ DIV_ROUND_UP bus hz := by
  rw [DIV_ROUND_UP, Nat.le_div_iff_mul_le h0]
  omega

theorem le_mul_DIV_ROUND_UP (bus hz : Nat) (h0 : 0 < hz) :
    bus ≤ DIV_ROUND_UP bus hz * hz := by
  rw [DIV_ROUND_UP]
  have h := Nat.div_add_mod (bus + hz - 1) hz
  have h2 : (bus + hz - 1) % hz < hz := Nat.mod_lt _ h0
  rw [Nat.mul_comm]
  generalize hq : (bus + hz - 1) / hz = q at *
  generalize hr : (bus + hz - 1) % hz = r at *
  generalize hX : hz * q = X at *
  omega

theorem div_le_of_ceil_le (bus hz e : Nat) (h0 : 0 < hz)
    (he : DIV_ROUND_UP bus hz ≤ e) : bus / e ≤ hz := by
  have h1 : bus ≤ DIV_ROUND_UP bus hz * hz := le_mul_DIV_ROUND_UP bus hz h0
  have h2 : bus ≤ e * hz := by
    calc bus ≤ DIV_ROUND_UP bus hz * hz := h1
      _ ≤ e * hz := Nat.mul_le_mul_right hz he
  exact Nat.div_le_of_le_mul h2

theorem le_roundup (n : Nat) : n ≤ roundup_pow_of_two n :=
  Nat.le_pow_clog (by norm_num) n

theorem roundup_min (n m : Nat) (h : n ≤ 2 ^ m) :
    roundup_pow_of_two n ≤ 2 ^ m := by
  rw [roundup_pow_of_two]
  exact Nat.pow_le_pow_right (by norm_num)
    ((Nat.le_pow_iff_clog_le (by norm_num)).mp h)

theorem roundup_is_pow (n : Nat) : ∃ k, roundup_pow_of_two n = 2 ^ k :=
  ⟨Nat.clog 2 n, rfl⟩

/-! ## Configuration resolver: divisor cases -/

/-- C2 (amended): for every bus clock frequency and requested frequency, the
resolver computes the divisor as follows, with the `requested_hz >= bus_hz`
comparison taking precedence (so the degenerate `bus_hz = 0` case yields 2,
not 0): if `requested_hz >= bus_hz` the divisor is 2; else if
`requested_hz == 0` the divisor encoding is 0 (slowest); otherwise the
divisor is `round-up(bus_hz / requested_hz)` rounded up to the next power
of two (the least power of two at least the rounded-up quotient), with
divisor > 65536 failing, divisor == 65536 clamped to the 0 encoding, and a
divisor of 1 — which cannot arise here — bumped to 2. -/
theorem setup_state_cdiv_cases (bus hz csel mode bpw : Nat)
    (hbpw : bpw = 8 ∨ bpw = 9) :
    (bus ≤ hz →
      bcm2708_setup_state bus hz csel mode bpw =
        .ok ⟨setup_cs_word mode csel bpw, 2⟩) ∧
    (hz = 0 → 0 < bus →
      bcm2708_setup_state bus hz csel mode bpw =
        .ok ⟨setup_cs_word mode csel bpw, 0⟩) ∧
    (0 < hz → hz < bus →
      ((∃ k, roundup_pow_of_two (DIV_ROUND_UP bus hz) = 2 ^ k) ∧
        DIV_ROUND_UP bus hz ≤ roundup_pow_of_two (DIV_ROUND_UP bus hz) ∧
        (∀ m, DIV_ROUND_UP bus hz ≤ 2 ^ m →
          roundup_pow_of_two (DIV_ROUND_UP bus hz) ≤ 2 ^ m)) ∧
      (65536 < roundup_pow_of_two (DIV_ROUND_UP bus hz) →
        bcm2708_setup_state bus hz csel mode bpw = .error (-EINVAL)) ∧
      (roundup_pow_of_two (DIV_ROUND_UP bus hz) = 65536 →
        bcm2708_setup_state bus hz csel mode bpw =
          .ok ⟨setup_cs_word mode csel bpw, 0⟩) ∧
      (roundup_pow_of_two (DIV_ROUND_UP bus hz) < 65536 →
        bcm2708_setup_state bus hz csel mode bpw =
          .ok ⟨setup_cs_word mode csel bpw,
               roundup_pow_of_two (DIV_ROUND_UP bus hz)⟩)) := by
  refine ⟨?_, ?_, ?_⟩
  · intro h
    rw [bcm2708_setup_state, bcm2708_setup_cdiv, if_pos h]
    simp [hbpw]
  · intro h0 hbus
    rw [bcm2708_setup_state, bcm2708_setup_cdiv, if_neg (by omega),
      if_neg (by omega)]
    simp [hbpw]
  · intro h0 h1
    have h2 : 2 ≤ roundup_pow_of_two (DIV_ROUND_UP bus hz) :=
      le_trans (DIV_ROUND_UP_two_le bus hz h0 h1) (le_roundup _)
    refine ⟨⟨roundup_is_pow _, le_roundup _, fun m hm => roundup_min _ m hm⟩,
      ?_, ?_, ?_⟩
    · intro hgt
      rw [bcm2708_setup_state, bcm2708_setup_cdiv, if_neg (by omega),
        if_pos (by omega)]
      simp only [if_pos hgt]
    · intro heq
      rw [bcm2708_setup_state, bcm2708_setup_cdiv, if_neg (by omega),
        if_pos (by omega)]
      simp only [if_neg (by omega : ¬ roundup_pow_of_two (DIV_ROUND_UP bus hz) > 65536),
        if_pos heq]
      simp [hbpw]
    · intro hlt
      rw [bcm2708_setup_state, bcm2708_setup_cdiv, if_neg (by omega),
        if_pos (by omega)]
      simp only [if_neg (by omega : ¬ roundup_pow_of_two (DIV_ROUND_UP bus hz) > 65536),
        if_neg (by omega : ¬ roundup_pow_of_two (DIV_ROUND_UP bus hz) = 65536),
        if_neg (by omega : ¬ roundup_pow_of_two (DIV_ROUND_UP bus hz) = 1)]
      simp [hbpw]

theorem roundup_eq (n k : Nat) (h1 : n ≤ 2 ^ k) (h2 : 2 ^ (k - 1) < n)
    (hk : 0 < k) : roundup_pow_of_two n = 2 ^ k := by
  have hc1 : Nat.clog 2 n ≤ k := (Nat.le_pow_iff_clog_le (by norm_num)).mp h1
  have hc2 : ¬ Nat.clog 2 n ≤ k - 1 := by
    intro hle
    have := (Nat.le_pow_iff_clog_le (by norm_num) (x := n) (y := k - 1)).mpr hle
    omega
  rw [roundup_pow_of_two]
  congr 1
  omega

/-- C2 witness: requesting 125 kHz on a 250 MHz bus resolves to the
power-of-two divisor 2048. -/
theorem setup_state_cdiv_cases_witness :
    bcm2708_setup_state 250000000 125000 0 0 8 = .ok ⟨0, 2048⟩ := by
  have hd : DIV_ROUND_UP 250000000 125000 = 2000 := by norm_num [DIV_ROUND_UP]
  have hr : roundup_pow_of_two (DIV_ROUND_UP 250000000 125000) = 2048 := by
    rw [hd]
    have := roundup_eq 2000 11 (by norm_num) (by norm_num) (by norm_num)
    simpa using this
  have h := ((setup_state_cdiv_cases 250000000 125000 0 0 8 (Or.inl rfl)).2.2
    (by norm_num) (by norm_num)).2.2.2 (by omega)
  rw [h, hr]
  rfl

/-- C2 counterexample: with a (degenerate) bus clock of 0 Hz and a requested
frequency of 0, the code's `hz >= bus_hz` comparison fires first and yields
divisor 2, while the claim's first clause (`requested_hz == 0` gives the 0
encoding) demands 0. -/
theorem setup_cdiv_zero_bus_cex :
    bcm2708_setup_state 0 0 0 0 8 = .ok ⟨0, 2⟩ ∧ (2 : Nat) ≠ 0 :=
  ⟨rfl, by norm_num⟩

/-- C6 (amended): whenever the resolver succeeds, the divisor is a power of
two in [2, 65536] or the 0 encoding (meaning 65536); when
`requested_hz >= bus_hz` the divisor is exactly 2 (clock `bus_hz/2`); when
`requested_hz = 0` (and the first case does not apply) the divisor is the 0
encoding, whose effective clock `bus_hz/65536` may exceed the requested 0;
and for `0 < requested_hz < bus_hz` the effective clock
`bus_hz/divisor` never exceeds `requested_hz`. -/
theorem divisor_range_and_clock (bus hz csel mode bpw : Nat)
    (st : bcm2708_spi_state)
    (hok : bcm2708_setup_state bus hz csel mode bpw = .ok st) :
    (st.cdiv = 0 ∨ ∃ k, st.cdiv = 2 ^ k ∧ 2 ≤ st.cdiv ∧ st.cdiv ≤ 65536) ∧
    (bus ≤ hz → st.cdiv = 2) ∧
    (hz = 0 → ¬ bus ≤ hz → st.cdiv = 0) ∧
    (0 < hz → hz < bus →
      bus / (if st.cdiv = 0 then 65536 else st.cdiv) ≤ hz) := by
  rw [bcm2708_setup_state] at hok
  rcases hc : bcm2708_setup_cdiv bus hz with e | c
  · rw [hc] at hok
    exact absurd hok (by simp)
  rw [hc] at hok
  have hok2 : (if bpw = 8 ∨ bpw = 9 then
      Except.ok (⟨setup_cs_word mode csel bpw, c⟩ : bcm2708_spi_state)
    else Except.error (-EINVAL)) = Except.ok st := hok
  by_cases hb : bpw = 8 ∨ bpw = 9
  swap
  · rw [if_neg hb] at hok2
    exact absurd hok2 (by simp)
  rw [if_pos hb] at hok2
  have hst : st.cdiv = c := by
    simp only [Except.ok.injEq] at hok2
    rw [← hok2]
  rw [bcm2708_setup_cdiv] at hc
  by_cases h1 : hz ≥ bus
  · rw [if_pos h1] at hc
    simp only [Except.ok.injEq] at hc
    subst hc
    refine ⟨Or.inr ⟨1, by omega, by omega, by omega⟩, fun _ => hst,
      fun _ hn => absurd h1 hn, fun hp hlt => absurd h1 (by omega)⟩
  rw [if_neg h1] at hc
  by_cases h2 : hz ≠ 0
  · rw [if_pos h2] at hc
    simp only [] at hc
    have hge2 : 2 ≤ roundup_pow_of_two (DIV_ROUND_UP bus hz) :=
      le_trans (DIV_ROUND_UP_two_le bus hz (by omega) (by omega)) (le_roundup _)
    by_cases hgt : roundup_pow_of_two (DIV_ROUND_UP bus hz) > 65536
    · rw [if_pos hgt] at hc
      exact absurd hc (by simp)
    rw [if_neg hgt] at hc
    by_cases heq : roundup_pow_of_two (DIV_ROUND_UP bus hz) = 65536
    · rw [if_pos heq] at hc
      simp only [Except.ok.injEq] at hc
      subst hc
      refine ⟨Or.inl hst, fun hle => absurd hle h1, fun hn _ => hst,
        fun hp hlt => ?_⟩
      rw [hst, if_pos rfl]
      exact div_le_of_ceil_le bus hz 65536 hp (by rw [← heq]; exact le_roundup _)
    rw [if_neg heq, if_neg (by omega)] at hc
    simp only [Except.ok.injEq] at hc
    subst hc
    refine ⟨Or.inr ⟨Nat.clog 2 (DIV_ROUND_UP bus hz), by rw [hst, roundup_pow_of_two],
        by omega, by omega⟩,
      fun hle => absurd hle h1, fun hn _ => absurd hn h2, fun hp hlt => ?_⟩
    rw [hst, if_neg (by omega)]
    exact div_le_of_ceil_le bus hz _ hp (le_roundup _)
  · rw [if_neg h2] at hc
    simp only [Except.ok.injEq] at hc
    subst hc
    refine ⟨Or.inl hst, fun hle => absurd hle h1, fun _ _ => hst,
      fun hp _ => by omega⟩

/-- C6 counterexample: `requested_hz = 0` on a 250 MHz bus succeeds with the
0 encoding (effective divisor 65536), whose clock 3814 Hz exceeds the
requested 0 Hz, and the `requested_hz >= bus_hz` exception does not apply. -/
theorem divisor_zero_request_cex :
    bcm2708_setup_state 250000000 0 0 0 8 = .ok ⟨0, 0⟩ ∧
    250000000 / 65536 = 3814 ∧ ¬ (250000000 / 65536 ≤ 0) ∧
    ¬ (250000000 ≤ 0) :=
  ⟨rfl, by norm_num, by norm_num, by norm_num⟩

/-- C6 witness: requesting the full 8 MHz bus rate yields divisor 2 with
clock exactly `bus_hz / 2`. -/
theorem divisor_range_and_clock_witness :
    (⟨0, 2⟩ : bcm2708_spi_state).cdiv = 2 ∧
    (0 = 0 ∨ ∃ k, (2 : Nat) = 2 ^ k ∧ 2 ≤ 2 ∧ 2 ≤ 65536) := by
  have h := divisor_range_and_clock 8000000 8000000 0 0 8 ⟨0, 2⟩ (by rfl)
  exact ⟨h.2.1 (by norm_num), Or.inr (by simpa using h.1.elim (by omega) id)⟩

/-! ## Word-width validation and chip-select boundary -/

theorem land_two_pow_eq_zero (x n : Nat) (h : x.testBit n = false) :
    x &&& 2 ^ n = 0 := by
  apply Nat.eq_of_testBit_eq
  intro i
  rw [Nat.testBit_land, Nat.zero_testBit]
  rcases eq_or_ne n i with rfl | hne
  · rw [h]
    simp
  · rw [Nat.testBit_two_pow_of_ne hne]
    simp

theorem land_two_pow_ne_zero (x n : Nat) (h : x.testBit n = true) :
    x &&& 2 ^ n ≠ 0 := by
  intro h0
  have hb : (x &&& 2 ^ n).testBit n = false := by
    rw [h0]
    exact Nat.zero_testBit n
  rw [Nat.testBit_land, h, Nat.testBit_two_pow] at hb
  simp at hb

theorem setup_cs_word_testBit13_8 (mode csel : Nat) (hcs : csel < 8192) :
    (setup_cs_word mode csel 8).testBit 13 = false := by
  have hsh : (SPI_CS_CSPOL0 <<< csel).testBit 13 = false := by
    rw [show SPI_CS_CSPOL0 = 2 ^ 21 from by norm_num [SPI_CS_CSPOL0],
      Nat.shiftLeft_eq, ← Nat.pow_add]
    exact Nat.testBit_two_pow_of_ne (by omega)
  have hcb : csel.testBit 13 = false :=
    Nat.testBit_lt_two_pow (lt_of_lt_of_le hcs (by norm_num))
  rw [setup_cs_word]
  split_ifs <;>
    simp_all [Nat.testBit_lor, hsh, hcb] <;>
    decide

theorem setup_cs_word_testBit13_9 (mode csel : Nat) :
    (setup_cs_word mode csel 9).testBit 13 = true := by
  have hlen : SPI_CS_LEN.testBit 13 = true := by decide
  rw [setup_cs_word]
  split_ifs <;> simp_all [Nat.testBit_lor, hlen]

theorem setup_cdiv_error (bus hz : Nat) (e : Int)
    (h : bcm2708_setup_cdiv bus hz = .error e) : e = -EINVAL := by
  rw [bcm2708_setup_cdiv] at h
  split_ifs at h with h1 h2
  · simp only [gt_iff_lt] at h
    split_ifs at h <;> simp_all

/-- C8: the resolver accepts exactly word widths 8 and 9 — width 8 leaves
the wide-mode (LoSSI) flag clear in the control word, width 9 sets it, and
any other width fails with `-EINVAL` (the driver's encoding of
InvalidWordWidth). -/
theorem setup_state_word_width (bus hz csel mode bpw : Nat)
    (hcs : csel < 256) :
    ((bpw ≠ 8 ∧ bpw ≠ 9) →
      bcm2708_setup_state bus hz csel mode bpw = .error (-EINVAL)) ∧
    (∀ st, bcm2708_setup_state bus hz csel mode bpw = .ok st →
      (bpw = 8 ∨ bpw = 9) ∧
      (bpw = 8 → st.cs &&& SPI_CS_LEN = 0) ∧
      (bpw = 9 → st.cs &&& SPI_CS_LEN ≠ 0)) := by
  have hlen2 : SPI_CS_LEN = 2 ^ 13 := by norm_num [SPI_CS_LEN]
  constructor
  · rintro ⟨h8, h9⟩
    rw [bcm2708_setup_state]
    rcases hc : bcm2708_setup_cdiv bus hz with e | c
    · show Except.error e = .error (-EINVAL)
      rw [setup_cdiv_error bus hz e hc]
    · show (if bpw = 8 ∨ bpw = 9 then
          Except.ok (⟨setup_cs_word mode csel bpw, c⟩ : bcm2708_spi_state)
        else Except.error (-EINVAL)) = .error (-EINVAL)
      rw [if_neg (by tauto)]
  · intro st hok
    rw [bcm2708_setup_state] at hok
    rcases hc : bcm2708_setup_cdiv bus hz with e | c
    · rw [hc] at hok
      exact absurd hok (by simp)
    rw [hc] at hok
    have hok2 : (if bpw = 8 ∨ bpw = 9 then
        Except.ok (⟨setup_cs_word mode csel bpw, c⟩ : bcm2708_spi_state)
      else Except.error (-EINVAL)) = Except.ok st := hok
    by_cases hb : bpw = 8 ∨ bpw = 9
    swap
    · rw [if_neg hb] at hok2
      exact absurd hok2 (by simp)
    rw [if_pos hb] at hok2
    simp only [Except.ok.injEq] at hok2
    have hcsw : st.cs = setup_cs_word mode csel bpw := by
      rw [← hok2]
    refine ⟨hb, fun h8 => ?_, fun h9 => ?_⟩
    · rw [hcsw, h8, hlen2]
      exact land_two_pow_eq_zero _ 13 (setup_cs_word_testBit13_8 mode csel (by omega))
    · rw [hcsw, h9, hlen2]
      exact land_two_pow_ne_zero _ 13 (setup_cs_word_testBit13_9 mode csel)

/-- C8 witness: width 7 is rejected, width 9 sets the wide-mode flag. -/
theorem setup_state_word_width_witness :
    bcm2708_setup_state 8000000 8000000 0 0 7 = .error (-EINVAL) ∧
    ((⟨SPI_CS_LEN, 2⟩ : bcm2708_spi_state).cs &&& SPI_CS_LEN ≠ 0) := by
  constructor
  · exact (setup_state_word_width 8000000 8000000 0 0 7 (by norm_num)).1
      (by norm_num)
  · exact (((setup_state_word_width 8000000 8000000 0 0 9 (by norm_num)).2
      ⟨SPI_CS_LEN, 2⟩ (by rfl)).2.2) rfl

/-- C9: with the no-chip-select mode flag clear, setup rejects a chip-select
index with `-EINVAL` exactly when it is strictly greater than the
configured count 3 — so index 3, one past the valid indices 0–2, passes the
boundary check. -/
theorem setup_chipselect_boundary (bus max_hz csel mode bpw : Nat)
    (hno : mode &&& SPI_NO_CS = 0) :
    (csel > master_num_chipselect →
      bcm2708_spi_setup false master_num_chipselect bus max_hz csel mode bpw =
        .error (-EINVAL)) ∧
    (csel ≤ master_num_chipselect →
      bcm2708_spi_setup false master_num_chipselect bus max_hz csel mode bpw =
        bcm2708_setup_state bus max_hz csel mode bpw) := by
  constructor
  · intro hgt
    show (if mode &&& SPI_NO_CS = 0 ∧ csel > master_num_chipselect then
        Except.error (-EINVAL)
      else bcm2708_setup_state bus max_hz csel mode bpw) = .error (-EINVAL)
    rw [if_pos ⟨hno, hgt⟩]
  · intro hle
    show (if mode &&& SPI_NO_CS = 0 ∧ csel > master_num_chipselect then
        Except.error (-EINVAL)
      else bcm2708_setup_state bus max_hz csel mode bpw) =
        bcm2708_setup_state bus max_hz csel mode bpw
    rw [if_neg (fun hc => absurd hc.2 (by omega))]

/-- C9 witness: chip select 3 (one past the valid 0–2) passes the boundary
check and resolves; chip select 4 is rejected. -/
theorem setup_chipselect_boundary_witness :
    bcm2708_spi_setup false 3 8000000 8000000 3 0 8 = .ok ⟨3, 2⟩ ∧
    bcm2708_spi_setup false 3 8000000 8000000 4 0 8 = .error (-EINVAL) := by
  constructor
  · have h := (setup_chipselect_boundary 8000000 8000000 3 0 8 (by decide)).2
      (by norm_num [master_num_chipselect])
    rw [show master_num_chipselect = 3 from rfl] at h
    rw [h]
    rfl
  · have h := (setup_chipselect_boundary 8000000 8000000 4 0 8 (by decide)).1
      (by norm_num [master_num_chipselect])
    rw [show master_num_chipselect = 3 from rfl] at h
    exact h

/-! ## Queue and worker -/

theorem bcm2708_work_map_fst (proc : spi_transfer → Int)
    (queue : List spi_message) :
    (bcm2708_work proc queue).map Prod.fst = queue := by
  induction queue with
  | nil => rfl
  | cons msg rest ih => simp [bcm2708_work, ih]

theorem bcm2708_work_status (proc : spi_transfer → Int)
    (queue : List spi_message) (msg : spi_message) (fs : Int)
    (h : (msg, fs) ∈ bcm2708_work proc queue) :
    fs = (runTransfers proc msg.transfers).1 := by
  induction queue with
  | nil => simp [bcm2708_work] at h
  | cons m rest ih =>
    rw [bcm2708_work] at h
    rcases List.mem_cons.mp h with heq | hmem
    · obtain ⟨h1, h2⟩ := Prod.mk.injEq .. ▸ heq
      rw [h2, h1]
    · exact ih hmem

theorem runTransfers_all_ok (proc : spi_transfer → Int)
    (xs : List spi_transfer) (h : ∀ x ∈ xs, proc x = 0) :
    runTransfers proc xs = (0, xs) := by
  induction xs with
  | nil => rfl
  | cons x rest ih =>
    have hx : proc x = 0 := h x (by simp)
    rw [runTransfers]
    simp only [hx, ne_eq, not_true_eq_false, if_false,
      ih (fun y hy => h y (by simp [hy]))]

theorem runTransfers_first_fail (proc : spi_transfer → Int)
    (pre : List spi_transfer) (x : spi_transfer) (post : List spi_transfer)
    (hpre : ∀ y ∈ pre, proc y = 0) (hx : proc x ≠ 0) :
    runTransfers proc (pre ++ x :: post) = (proc x, pre ++ [x]) := by
  induction pre with
  | nil =>
    rw [List.nil_append, runTransfers]
    simp [hx]
  | cons y pre ih =>
    have hy : proc y = 0 := hpre y (by simp)
    rw [List.cons_append, runTransfers]
    simp only [hy, ne_eq, not_true_eq_false, if_false,
      ih (fun z hz => hpre z (by simp [hz]))]
    simp

/-- C3: the worker completes queued messages in strict FIFO submission order
with exactly one completion per message; within a message, transfers run in
list order, the first failing transfer's status becomes the message's final
status and later transfers are not attempted (an all-success message runs
every transfer with final status 0); a transfer whose completion signal is
not raised within the fixed budget fails with `-ETIMEDOUT`. -/
theorem work_fifo_first_error (proc : spi_transfer → Int)
    (queue : List spi_message) :
    ((bcm2708_work proc queue).map Prod.fst = queue) ∧
    (∀ msg fs, (msg, fs) ∈ bcm2708_work proc queue →
      fs = (runTransfers proc msg.transfers).1) ∧
    (∀ xs : List spi_transfer, (∀ x ∈ xs, proc x = 0) →
      runTransfers proc xs = (0, xs)) ∧
    (∀ (pre : List spi_transfer) (x : spi_transfer)
        (post : List spi_transfer),
      (∀ y ∈ pre, proc y = 0) → proc x ≠ 0 →
      runTransfers proc (pre ++ x :: post) = (proc x, pre ++ [x])) ∧
    (∀ (bus : Nat) (d : spi_device) (st : bcm2708_spi_state)
        (x : spi_transfer),
      x.bits_per_word = 0 → x.speed_hz = 0 →
      bcm2708_process_transfer false bus d st x false = -ETIMEDOUT) := by
  refine ⟨bcm2708_work_map_fst proc queue,
    fun msg fs h => bcm2708_work_status proc queue msg fs h,
    fun xs h => runTransfers_all_ok proc xs h,
    fun pre x post hpre hx => runTransfers_first_fail proc pre x post hpre hx,
    ?_⟩
  intro bus d st x h1 h2
  simp [bcm2708_process_transfer, h1, h2]

/-- C3 witness: a two-message queue completes in order; in the first message
the middle transfer fails with `-ETIMEDOUT` and the third is not attempted. -/
theorem work_fifo_first_error_witness :
    (bcm2708_work (fun x => if x.len = 9 then (-110 : Int) else 0)
        [msgA, msgB]).map Prod.fst = [msgA, msgB] ∧
    runTransfers (fun x => if x.len = 9 then (-110 : Int) else 0)
        ([xfA] ++ xfB :: [xfC]) = (-110, [xfA] ++ [xfB]) ∧
    bcm2708_process_transfer false 250000000 spiDev0 ⟨0, 2⟩ xfA false =
      -ETIMEDOUT := by
  have h := work_fifo_first_error (fun x => if x.len = 9 then (-110 : Int) else 0)
    [msgA, msgB]
  refine ⟨h.1, ?_, h.2.2.2.2 250000000 spiDev0 ⟨0, 2⟩ xfA (by decide) (by decide)⟩
  have h4 := h.2.2.2.1 [xfA] xfB [xfC] (by decide) (by decide)
  simpa using h4

/-- C4 (code-bug evaluation): the message whose only transfer carries an
invalid width override 7 together with a speed override is accepted and
enqueued (status 0) because the guard
`if (!xfer->bits_per_word || xfer->speed_hz) continue;` skips validation
whenever a speed override is present, even though the resolver rejects
exactly that override; without the speed override the same width is
rejected synchronously. -/
theorem transfer_skips_override_validation :
    bcm2708_spi_transfer 250000000 false [] msgBug = (0, [msgBug]) ∧
    bcm2708_setup_state 250000000 250000000 0 0 7 = .error (-EINVAL) ∧
    bcm2708_spi_transfer 250000000 false [] msgBadW = (-EINVAL, []) :=
  ⟨rfl, rfl, rfl⟩

/-- C7 counterexample: an empty message submitted while stopping is rejected
with `-EINVAL` — the empty-message check precedes the stopping check — not
with `-ESHUTDOWN` as the claim requires of every message. -/
theorem submit_empty_during_stop_cex :
    bcm2708_spi_transfer 250000000 true [] ⟨spiDev0, []⟩ = (-EINVAL, []) ∧
    (-EINVAL : Int) ≠ -ESHUTDOWN :=
  ⟨rfl, by norm_num [EINVAL, ESHUTDOWN]⟩

/-- C7 (amended): every message containing at least one transfer that is
submitted after shutdown has set the stopping flag fails with `-ESHUTDOWN`
and leaves the queue unchanged; an empty message fails with `-EINVAL`, also
leaving the queue unchanged — either way nothing is enqueued. -/
theorem submit_after_shutdown (bus : Nat) (queue : List spi_message)
    (msg : spi_message) :
    (msg.transfers ≠ [] →
      bcm2708_spi_transfer bus true queue msg = (-ESHUTDOWN, queue)) ∧
    (msg.transfers = [] →
      bcm2708_spi_transfer bus true queue msg = (-EINVAL, queue)) := by
  constructor
  · intro h
    rw [bcm2708_spi_transfer, if_neg h]
    rfl
  · intro h
    rw [bcm2708_spi_transfer, if_pos h]

/-- C7 witness: a concrete nonempty message during shutdown gets
`-ESHUTDOWN` and the queue stays empty. -/
theorem submit_after_shutdown_witness :
    bcm2708_spi_transfer 250000000 true [] msgB = (-ESHUTDOWN, []) :=
  (submit_after_shutdown 250000000 [] msgB).1 (by decide)

/-- C10: once the stopping flag is observed by the worker, the first
not-yet-armed transfer of a message — including one whose earlier transfers
already ran — fails with `-ESHUTDOWN` before being armed (whatever the
hardware environment would have done), that status becomes the message's
final status, later transfers are not attempted, and the completion
callback still fires exactly once. -/
theorem stopping_mid_message (stopFlag completes : spi_transfer → Bool)
    (bus : Nat) (d : spi_device) (st : bcm2708_spi_state)
    (msg : spi_message) (pre : List spi_transfer) (x : spi_transfer)
    (post : List spi_transfer)
    (hsplit : msg.transfers = pre ++ x :: post)
    (hpre : ∀ y ∈ pre,
      bcm2708_process_transfer (stopFlag y) bus d st y (completes y) = 0)
    (hstop : stopFlag x = true) :
    runTransfers
        (fun y => bcm2708_process_transfer (stopFlag y) bus d st y (completes y))
        msg.transfers = (-ESHUTDOWN, pre ++ [x]) ∧
    bcm2708_work
        (fun y => bcm2708_process_transfer (stopFlag y) bus d st y (completes y))
        [msg] = [(msg, -ESHUTDOWN)] := by
  have hx : bcm2708_process_transfer (stopFlag x) bus d st x (completes x) =
      -ESHUTDOWN := by
    rw [hstop, bcm2708_process_transfer]
    rfl
  have hfail : bcm2708_process_transfer (stopFlag x) bus d st x (completes x) ≠ 0 := by
    rw [hx]
    norm_num [ESHUTDOWN]
  have hrun := runTransfers_first_fail
    (fun y => bcm2708_process_transfer (stopFlag y) bus d st y (completes y))
    pre x post hpre hfail
  constructor
  · rw [hsplit, hrun]
    simp [hx]
  · simp [bcm2708_work, hsplit, hrun, hx]

/-- C10 witness: a message whose first transfer already completed is cut
short when shutdown hits before its second transfer; the message finishes
once with status `-ESHUTDOWN` and the third transfer never runs. -/
theorem stopping_mid_message_witness :
    runTransfers
        (fun y => bcm2708_process_transfer (y.len == 9) 250000000 spiDev0 ⟨0, 2⟩ y true)
        msgA.transfers = (-ESHUTDOWN, [xfA] ++ [xfB]) ∧
    bcm2708_work
        (fun y => bcm2708_process_transfer (y.len == 9) 250000000 spiDev0 ⟨0, 2⟩ y true)
        [msgA] = [(msgA, -ESHUTDOWN)] := by
  have h := stopping_mid_message (fun y => y.len == 9) (fun _ => true)
    250000000 spiDev0 ⟨0, 2⟩ msgA [xfA] xfB [xfC] (by rfl) (by decide) (by decide)
  exact ⟨h.1, h.2⟩

/-! ## Wide-mode odd-length behaviour -/

/-- C5 counterexample: (i) an odd remaining length of 17, above the 16-byte
clamp, does not abort — the handler pushes 8 words and leaves 1 byte
remaining; (ii) in the aborting case (remaining 3), nothing is written, yet
the transfer completes with status 0 (no protocol error is propagated) and
the full 3 bytes — not zero — are counted toward the message's actual
length. -/
theorem wr_fifo_wide_odd_cex :
    (bcm2708_spi_interrupt
      ⟨73728, [], [], some (List.replicate 17 1), none, 17, false⟩).txFifoWr.length = 8 ∧
    (bcm2708_spi_interrupt
      ⟨73728, [], [], some (List.replicate 17 1), none, 17, false⟩).len = 1 ∧
    (runIrqs 2 ⟨73728, [], [], some [1, 2, 3], none, 3, false⟩).done = true ∧
    (runIrqs 2 ⟨73728, [], [], some [1, 2, 3], none, 3, false⟩).txFifoWr = [] ∧
    actual_length_add 3 (runIrqs 2 ⟨73728, [], [], some [1, 2, 3], none, 3, false⟩).len = 3 ∧
    (3 : Nat) ≠ 0 ∧
    bcm2708_process_transfer false 250000000 spiDev0 ⟨73728, 2⟩
      ⟨some [1, 2, 3], none, 3, 0, 0, 0, false⟩ true = 0 := by
  decide

/-- C5 (amended): in wide (9-bit) mode the pump aborts exactly when the
clamped push length (the minimum of the requested count and the remaining
length) is odd, setting the remaining length to 0 without writing any word
to the FIFO; an even clamped length pushes that many bytes as 2-byte words.
No error status is propagated for the abort — the transfer still completes
with status 0, so (the remaining length having been zeroed) its full length
is counted toward the message's actual length. -/
theorem wr_fifo_wide_odd_abort :
    (∀ (bs : bcm2708_spi) (lenArg : Nat),
      csRead bs &&& SPI_CS_LEN ≠ 0 → min lenArg bs.len % 2 = 1 →
      bcm2708_wr_fifo bs lenArg = { bs with len := 0 }) ∧
    (∀ (bs : bcm2708_spi) (lenArg : Nat),
      csRead bs &&& SPI_CS_LEN ≠ 0 → min lenArg bs.len % 2 = 0 →
      bcm2708_wr_fifo bs lenArg =
        { bs with tx_buf := bs.tx_buf.map (List.drop (min lenArg bs.len))
                  txFifoWr := bs.txFifoWr ++ wideWords bs.tx_buf (min lenArg bs.len / 2)
                  len := bs.len - min lenArg bs.len }) ∧
    (∀ (bus : Nat) (d : spi_device) (st : bcm2708_spi_state)
        (x : spi_transfer),
      x.bits_per_word = 0 → x.speed_hz = 0 →
      bcm2708_process_transfer false bus d st x true = 0) ∧
    (∀ (n : Nat), actual_length_add n 0 = n) := by
  refine ⟨fun bs lenArg h ho => bcm2708_wr_fifo_wide_odd bs lenArg h ho,
    fun bs lenArg h he => bcm2708_wr_fifo_wide_even bs lenArg h he,
    ?_, fun n => rfl⟩
  intro bus d st x h1 h2
  simp [bcm2708_process_transfer, h1, h2]

/-- C5 witness: a wide-mode pump of 16 over a remaining length of 3 aborts,
zeroing the remaining length with nothing written. -/
theorem wr_fifo_wide_odd_abort_witness :
    bcm2708_wr_fifo ⟨8192, [], [], some [1, 2, 3], none, 3, false⟩ 16 =
      ⟨8192, [], [], some [1, 2, 3], none, 0, false⟩ := by
  have h := wr_fifo_wide_odd_abort.1 ⟨8192, [], [], some [1, 2, 3], none, 3, false⟩
    16 (by decide) (by decide)
  rw [h]
